import Mathlib

/-!
Verification of the OneSweep GPU radix sort (GPUSorting repository).

The development shallowly embeds the host-side command-list builder
`OneSweep::PrepareSortCmdList` from `src/GPUSortingD3D12/OneSweep.cpp`
(buffer handles, dispatches, UAV barriers, ping-pong swaps) and, for the
parts of the repository that live outside `src/` (the HLSL kernels and the
`SweepBase` layer), models the sort semantics, the order-preserving key
transform and the configuration validation from the specification.
-/

set_option maxRecDepth 100000

namespace GPUSorting

/-! ## Data model shared with the surrounding orchestration code -/

/-- Sorting order requested at construction (`GPUSorting::ORDER`). -/
inductive ORDER
  | ascending
  | descending
deriving DecidableEq

/-- Key type requested at construction (`GPUSorting::KEY_TYPE`):
unsigned 32-bit integer, signed 32-bit integer, or 32-bit float. -/
inductive KEY_TYPE
  | uint32
  | int32
  | float32
deriving DecidableEq

/-- Payload type (`GPUSorting::PAYLOAD_TYPE`). -/
inductive PAYLOAD_TYPE
  | uint32
  | int32
  | float32
deriving DecidableEq

/-- Device capability descriptor (`GPUSorting::DeviceInfo`); the fields the
spec names are the maximum number of concurrently resident partitions and a
preferred partition size. -/
structure DeviceInfo where
  maxConcurrentPartitions : Nat
  preferredPartitionSize : Nat
deriving DecidableEq

/-! ## The OneSweep constructors (OneSweep.cpp lines 13-53)

Both constructors forward fixed radix parameters to `SweepBase`:
`"OneSweep "`, 4 radix passes, 256 radix digits, and a partition size of
`1 <<< 13` keys. The pairs constructor additionally forwards the payload
type. Nothing else differs. -/

/-- Arguments the OneSweep constructors pass to the `SweepBase` base-class
constructor. -/
structure SweepBaseArgs where
  deviceInfo : DeviceInfo
  sortingOrder : ORDER
  keyType : KEY_TYPE
  payloadType : Option PAYLOAD_TYPE
  sortName : String
  radixPasses : Nat
  radixDigits : Nat
  partitionSize : Nat
deriving DecidableEq

/-- Embedding of the keys-only constructor `OneSweep::OneSweep(device,
deviceInfo, sortingOrder, keyType)` (OneSweep.cpp lines 13-31): it passes
`"OneSweep "`, 4, 256, `1 << 13` to `SweepBase` and no payload type. -/
def OneSweepCtorKeysOnly (dev : DeviceInfo) (o : ORDER) (kt : KEY_TYPE) :
    SweepBaseArgs :=
  { deviceInfo := dev
    sortingOrder := o
    keyType := kt
    payloadType := none
    sortName := "OneSweep "
    radixPasses := 4
    radixDigits := 256
    partitionSize := 1 <<< 13 }

/-- Embedding of the key-payload constructor `OneSweep::OneSweep(device,
deviceInfo, sortingOrder, keyType, payloadType)` (OneSweep.cpp lines 33-53):
identical to the keys-only constructor except that the payload type is
forwarded. -/
def OneSweepCtorPairs (dev : DeviceInfo) (o : ORDER) (kt : KEY_TYPE)
    (pt : PAYLOAD_TYPE) : SweepBaseArgs :=
  { deviceInfo := dev
    sortingOrder := o
    keyType := kt
    payloadType := some pt
    sortName := "OneSweep "
    radixPasses := 4
    radixDigits := 256
    partitionSize := 1 <<< 13 }

/-! ## Command-list embedding of `OneSweep::PrepareSortCmdList`
(OneSweep.cpp lines 68-115) -/

/-- Buffer objects referenced by `PrepareSortCmdList`: the global histogram
buffer, the pass histogram buffer, the tile-index buffer, and the two key
and two payload buffers that are ping-ponged. `key0`/`payload0` are the
objects initially held by `m_sortBuffer`/`m_sortPayloadBuffer`;
`key1`/`payload1` those initially held by `m_altBuffer`/`m_altPayloadBuffer`. -/
inductive Buf
  | globalHist
  | passHist
  | index
  | key0
  | key1
  | payload0
  | payload1
deriving DecidableEq, BEq

/-- Commands recorded on the command list by `PrepareSortCmdList`: the four
kernel dispatches (with their buffer arguments and scalar arguments in
source order) and the single-resource UAV barrier. -/
inductive Cmd
  | dispatchInitSweep (ghBuf phBuf idxBuf : Buf) (partitions : Nat)
  | dispatchGlobalHist (srcBuf ghBuf : Buf) (numKeys globalHistPartitions : Nat)
  | dispatchScan (ghBuf phBuf : Buf) (partitions radixPasses : Nat)
  | dispatchDigitBinning (src dst srcPayload dstPayload idxBuf phBuf : Buf)
      (numKeys partitions radixShift : Nat)
  | uavBarrierSingle (b : Buf)
deriving DecidableEq, BEq

/-- Mutable buffer-role state of the sweep object: which buffer object each
of the four ping-ponged handles currently denotes. -/
structure SweepState where
  sortBuffer : Buf
  altBuffer : Buf
  sortPayloadBuffer : Buf
  altPayloadBuffer : Buf
deriving DecidableEq, BEq

/-- Buffer roles on entry to `PrepareSortCmdList`. -/
def initialState : SweepState :=
  { sortBuffer := Buf.key0
    altBuffer := Buf.key1
    sortPayloadBuffer := Buf.payload0
    altPayloadBuffer := Buf.payload1 }

/-- Number of radix passes fixed by the OneSweep constructors
(`k_radixPasses = 4`). -/
def k_radixPasses : Nat := 4

/-- Body of one iteration of the digit-binning loop (OneSweep.cpp lines
96-113): dispatch the digit-binning pass with the current buffer roles,
record UAV barriers on `m_sortBuffer`, `m_sortPayloadBuffer`, `m_altBuffer`
and `m_altPayloadBuffer` in that order, then swap the two key buffers and
the two payload buffers. -/
def binningIteration (st : SweepState) (numKeys partitions radixShift : Nat) :
    List Cmd × SweepState :=
  ([Cmd.dispatchDigitBinning st.sortBuffer st.altBuffer st.sortPayloadBuffer
      st.altPayloadBuffer Buf.index Buf.passHist numKeys partitions radixShift,
    Cmd.uavBarrierSingle st.sortBuffer,
    Cmd.uavBarrierSingle st.sortPayloadBuffer,
    Cmd.uavBarrierSingle st.altBuffer,
    Cmd.uavBarrierSingle st.altPayloadBuffer],
   { sortBuffer := st.altBuffer
     altBuffer := st.sortBuffer
     sortPayloadBuffer := st.altPayloadBuffer
     altPayloadBuffer := st.sortPayloadBuffer })

/-- The loop `for (radixShift = 0; radixShift < 32; radixShift += 8)`
(OneSweep.cpp line 94) runs exactly the iterations with `radixShift` equal
to 0, 8, 16 and 24; it is embedded as structural recursion on the count of
iterations still to run, stepping the shift by 8 each time. -/
def binningLoop : Nat → Nat → SweepState → Nat → Nat → List Cmd × SweepState
  | 0, _, st, _, _ => ([], st)
  | iters + 1, radixShift, st, numKeys, partitions =>
    let step := binningIteration st numKeys partitions radixShift
    let rest := binningLoop iters (radixShift + 8) step.2 numKeys partitions
    (step.1 ++ rest.1, rest.2)

/-- Embedding of `OneSweep::PrepareSortCmdList` (OneSweep.cpp lines 68-115):
the recorded command sequence together with the buffer-role state after the
call. Scalars `numKeys`, `partitions` and `globalHistPartitions` model the
member fields `m_numKeys`, `m_partitions` and `m_globalHistPartitions`. -/
def PrepareSortCmdList (numKeys partitions globalHistPartitions : Nat) :
    List Cmd × SweepState :=
  let head : List Cmd :=
    [Cmd.dispatchInitSweep Buf.globalHist Buf.passHist Buf.index partitions,
     Cmd.uavBarrierSingle Buf.globalHist,
     Cmd.dispatchGlobalHist initialState.sortBuffer Buf.globalHist numKeys
       globalHistPartitions,
     Cmd.uavBarrierSingle Buf.globalHist,
     Cmd.dispatchScan Buf.globalHist Buf.passHist partitions k_radixPasses,
     Cmd.uavBarrierSingle Buf.passHist]
  let loopPart := binningLoop (32 / 8) 0 initialState numKeys partitions
  (head ++ loopPart.1, loopPart.2)

/-! ## Observation functions on recorded commands -/

/-- Radix shift of a digit-binning dispatch, `none` for every other command. -/
def binShiftOf : Cmd → Option Nat
  | Cmd.dispatchDigitBinning _ _ _ _ _ _ _ _ radixShift => some radixShift
  | _ => none

/-- Buffer arguments (source, destination, payload source, payload
destination) of a digit-binning dispatch, `none` for every other command. -/
def binBuffers : Cmd → Option (Buf × Buf × Buf × Buf)
  | Cmd.dispatchDigitBinning src dst srcPayload dstPayload _ _ _ _ _ =>
    some (src, dst, srcPayload, dstPayload)
  | _ => none

/-- Pipeline stage of a dispatch command; barriers yield `none`. -/
inductive Stage
  | reset
  | globalHistogram
  | exclusiveScan
  | digitBinning (radixShift : Nat)
deriving DecidableEq

/-- Stage classification of a recorded command. -/
def stageOf : Cmd → Option Stage
  | Cmd.dispatchInitSweep _ _ _ _ => some Stage.reset
  | Cmd.dispatchGlobalHist _ _ _ _ => some Stage.globalHistogram
  | Cmd.dispatchScan _ _ _ _ => some Stage.exclusiveScan
  | Cmd.dispatchDigitBinning _ _ _ _ _ _ _ _ radixShift =>
    some (Stage.digitBinning radixShift)
  | Cmd.uavBarrierSingle _ => none

/-! ## Dependency and barrier analysis of the recorded command sequence

Resources are pairs `(buffer, slice)`. The pass-histogram buffer and the
tile-index buffer hold one region per radix pass (spec section 3: 256
counters per partition per pass, and one tile-index counter per pass);
slice `p` denotes the region belonging to pass `p`, and a digit-binning
dispatch at `radixShift` works on the region of pass `radixShift / 8`.
All other buffers are a single region, slice `0`. -/

/-- Modelled from the spec: the resources written by each dispatched kernel
(the kernels themselves live in `Shaders/OneSweep.hlsl`, outside `src/`).
Reset zeroes the global histogram, every pass-histogram region and every
tile-index counter (spec section 2 stage 1); Global Histogram atomically
accumulates into the global histogram (stage 2); Exclusive Scan transforms
the global histogram in place and writes the per-pass seed values into the
pass-histogram regions (stage 3); a digit-binning pass scatters into the
destination key and payload buffers, publishes counts in its own pass's
pass-histogram region and increments its own pass's tile-index counter
(stage 4). -/
def cmdWrites : Cmd → List (Buf × Nat)
  | Cmd.dispatchInitSweep ghBuf phBuf idxBuf _ =>
    (ghBuf, 0) :: (((List.range 4).map fun p => (phBuf, p)) ++
      ((List.range 4).map fun p => (idxBuf, p)))
  | Cmd.dispatchGlobalHist _ ghBuf _ _ => [(ghBuf, 0)]
  | Cmd.dispatchScan ghBuf phBuf _ _ =>
    (ghBuf, 0) :: ((List.range 4).map fun p => (phBuf, p))
  | Cmd.dispatchDigitBinning _ dst _ dstPayload idxBuf phBuf _ _ radixShift =>
    [(dst, 0), (dstPayload, 0), (phBuf, radixShift / 8),
     (idxBuf, radixShift / 8)]
  | Cmd.uavBarrierSingle _ => []

/-- Modelled from the spec: the resources read by each dispatched kernel.
Global Histogram reads the source key buffer and read-modify-writes the
global histogram; Exclusive Scan reads the global histogram; a
digit-binning pass reads the source key and payload buffers, its own pass's
pass-histogram region (seed values and predecessors' published counts) and
its own pass's tile-index counter. -/
def cmdReads : Cmd → List (Buf × Nat)
  | Cmd.dispatchInitSweep _ _ _ _ => []
  | Cmd.dispatchGlobalHist srcBuf ghBuf _ _ => [(srcBuf, 0), (ghBuf, 0)]
  | Cmd.dispatchScan ghBuf _ _ _ => [(ghBuf, 0)]
  | Cmd.dispatchDigitBinning src _ srcPayload _ idxBuf phBuf _ _ radixShift =>
    [(src, 0), (srcPayload, 0), (phBuf, radixShift / 8),
     (idxBuf, radixShift / 8)]
  | Cmd.uavBarrierSingle _ => []

/-- A `UAVBarrierSingle` on a buffer orders accesses to every region of
that buffer and of no other buffer. -/
def barrierCovers : Cmd → Buf × Nat → Bool
  | Cmd.uavBarrierSingle b, r => b == r.1
  | _, _ => false

/-- Whether some command strictly between positions `i` and `j` is a
barrier covering resource `r`. -/
def hasBarrierBetween (cmds : List Cmd) (i j : Nat) (r : Buf × Nat) : Bool :=
  ((cmds.drop (i + 1)).take (j - i - 1)).any fun c => barrierCovers c r

/-- Write-then-read dependencies of a command sequence that no intervening
barrier covers: triples `(i, j, r)` such that command `i` writes resource
`r`, a later command `j` reads `r`, and no barrier covering `r` stands
strictly between them. -/
def uncoveredDeps (cmds : List Cmd) : List (Nat × Nat × Buf × Nat) :=
  (List.range cmds.length).flatMap fun i =>
    (List.range cmds.length).flatMap fun j =>
      if i < j then
        match cmds[i]?, cmds[j]? with
        | some ci, some cj =>
          ((cmdWrites ci).filter fun r =>
              (cmdReads cj).contains r && !hasBarrierBetween cmds i j r).map
            fun r => (i, j, r)
        | _, _ => []
      else []

/-- Scalar-erasing renaming used only in proofs: it replaces the dispatch
scalar arguments that play no role in the dependency analysis (key counts
and partition counts) by zero, keeping buffer arguments and radix shifts. -/
def scrubNat : Cmd → Cmd
  | Cmd.dispatchInitSweep a b c _ => Cmd.dispatchInitSweep a b c 0
  | Cmd.dispatchGlobalHist a b _ _ => Cmd.dispatchGlobalHist a b 0 0
  | Cmd.dispatchScan a b _ _ => Cmd.dispatchScan a b 0 0
  | Cmd.dispatchDigitBinning a b c d e f _ _ sh =>
    Cmd.dispatchDigitBinning a b c d e f 0 0 sh
  | Cmd.uavBarrierSingle b => Cmd.uavBarrierSingle b

/-- The prepared command sequence with the dependency-irrelevant scalars
erased: a closed value used to settle the dependency analysis by
evaluation. -/
def scrubbedPreparedCmds : List Cmd := (PrepareSortCmdList 0 0 0).1.map scrubNat

/-! ## Order-preserving key transform (spec section 4.1)

The transform itself is applied device-side (in the HLSL kernels, outside
`src/`), so it is modelled from the spec: signed integers flip their sign
bit; floating-point keys flip their sign bit when non-negative and
bitwise-invert all bits when negative (the standard monotonic
float-to-uint mapping); a full bitwise inversion is additionally applied
when descending order is requested. Keys are 32-bit bit patterns,
represented as natural numbers below `2 ^ 32`; the sign-bit flip and the
full inversion are written arithmetically (`+ 2 ^ 31` / `- 2 ^ 31` and
`2 ^ 32 - 1 - k`), which agree with the bitwise operations on this
domain. -/

/-- Size of the 32-bit key space, `2 ^ 32`. -/
def keySpace : Nat := 4294967296

/-- Value of the sign bit of a 32-bit word, `2 ^ 31`. -/
def signBit : Nat := 2147483648

/-- Modelled from the spec: flipping the sign bit of a 32-bit pattern. -/
def flipSignBit (k : Nat) : Nat :=
  if k < signBit then k + signBit else k - signBit

/-- Modelled from the spec: bitwise inversion of all 32 bits. -/
def invertBits (k : Nat) : Nat := keySpace - 1 - k

/-- Modelled from the spec: the monotonic float-to-uint mapping — flip the
sign bit of a non-negative pattern, invert all bits of a negative one. -/
def forwardFloat (k : Nat) : Nat :=
  if k < signBit then k + signBit else keySpace - 1 - k

/-- Inverse of `forwardFloat` on the 32-bit domain: a transformed value at
or above the sign bit came from a non-negative pattern, one below it from a
negative pattern. -/
def inverseFloat (t : Nat) : Nat :=
  if signBit ≤ t then t - signBit else keySpace - 1 - t

/-- Modelled from the spec: the ascending-order forward transform per key
type — identity for unsigned keys, sign-bit flip for signed keys, the
monotonic float-to-uint mapping for float keys. -/
def forwardAsc (kt : KEY_TYPE) (k : Nat) : Nat :=
  match kt with
  | KEY_TYPE.uint32 => k
  | KEY_TYPE.int32 => flipSignBit k
  | KEY_TYPE.float32 => forwardFloat k

/-- Inverse of `forwardAsc` per key type. -/
def inverseAsc (kt : KEY_TYPE) (t : Nat) : Nat :=
  match kt with
  | KEY_TYPE.uint32 => t
  | KEY_TYPE.int32 => flipSignBit t
  | KEY_TYPE.float32 => inverseFloat t

/-- Modelled from the spec: the full forward key transform — the
ascending-order transform, with an additional full bitwise inversion when
descending order is requested. -/
def forwardKey (kt : KEY_TYPE) (o : ORDER) (k : Nat) : Nat :=
  match o with
  | ORDER.ascending => forwardAsc kt k
  | ORDER.descending => invertBits (forwardAsc kt k)

/-- Inverse of `forwardKey`: undo the descending inversion, then the
per-type transform. -/
def inverseKey (kt : KEY_TYPE) (o : ORDER) (t : Nat) : Nat :=
  match o with
  | ORDER.ascending => inverseAsc kt t
  | ORDER.descending => inverseAsc kt (invertBits t)

/-! ## Key-type interpretation orders -/

/-- Two's-complement interpretation of a 32-bit pattern. -/
def toInt32 (k : Nat) : Int :=
  if k < signBit then (k : Int) else (k : Int) - (keySpace : Int)

/-- Order on 32-bit patterns interpreted as floats, as induced by the
standard monotonic float-to-uint mapping of spec section 4.1 (sign and
magnitude): negative patterns (sign bit set) precede non-negative ones,
negative patterns order by decreasing magnitude bits, non-negative ones by
increasing magnitude bits. NaN patterns are ordered as plain bit patterns
of maximal magnitude, matching the spec's instruction to treat NaNs as
fixed bit patterns, not numerically. -/
def floatKeyLe (a b : Nat) : Prop :=
  (signBit ≤ a ∧ signBit ≤ b ∧ b ≤ a) ∨ (signBit ≤ a ∧ b < signBit) ∨
    (a < signBit ∧ b < signBit ∧ a ≤ b)

instance (a b : Nat) : Decidable (floatKeyLe a b) := by
  unfold floatKeyLe
  infer_instance

/-- Order on 32-bit key patterns under the requested key-type
interpretation. -/
def keyTypeLe (kt : KEY_TYPE) (a b : Nat) : Prop :=
  match kt with
  | KEY_TYPE.uint32 => a ≤ b
  | KEY_TYPE.int32 => toInt32 a ≤ toInt32 b
  | KEY_TYPE.float32 => floatKeyLe a b

instance (kt : KEY_TYPE) (a b : Nat) : Decidable (keyTypeLe kt a b) :=
  match kt with
  | KEY_TYPE.uint32 => inferInstanceAs (Decidable (a ≤ b))
  | KEY_TYPE.int32 => inferInstanceAs (Decidable (toInt32 a ≤ toInt32 b))
  | KEY_TYPE.float32 => inferInstanceAs (Decidable (floatKeyLe a b))

/-- Order on 32-bit key patterns under the requested key-type
interpretation and sorting order: descending reverses the interpretation
order. -/
def keyOrderLe (kt : KEY_TYPE) (o : ORDER) (a b : Nat) : Prop :=
  match o with
  | ORDER.ascending => keyTypeLe kt a b
  | ORDER.descending => keyTypeLe kt b a

instance (kt : KEY_TYPE) (o : ORDER) (a b : Nat) :
    Decidable (keyOrderLe kt o a b) :=
  match o with
  | ORDER.ascending => inferInstanceAs (Decidable (keyTypeLe kt a b))
  | ORDER.descending => inferInstanceAs (Decidable (keyTypeLe kt b a))

/-! ## Round-trip and monotonicity of the transform -/

theorem forwardAsc_lt (kt : KEY_TYPE) {k : Nat} (hk : k < keySpace) :
    forwardAsc kt k < keySpace := by
  cases kt <;>
    simp only [forwardAsc, flipSignBit, forwardFloat, signBit, keySpace] at * <;>
    (try split_ifs) <;> omega

theorem invertBits_lt {k : Nat} (hk : k < keySpace) : invertBits k < keySpace := by
  simp only [invertBits, keySpace] at *
  omega

theorem forwardKey_lt (kt : KEY_TYPE) (o : ORDER) {k : Nat} (hk : k < keySpace) :
    forwardKey kt o k < keySpace := by
  cases o
  · exact forwardAsc_lt kt hk
  · exact invertBits_lt (forwardAsc_lt kt hk)

theorem inverseAsc_forwardAsc (kt : KEY_TYPE) {k : Nat} (hk : k < keySpace) :
    inverseAsc kt (forwardAsc kt k) = k := by
  cases kt <;>
    simp only [inverseAsc, forwardAsc, flipSignBit, forwardFloat, inverseFloat,
      signBit, keySpace] at * <;>
    split_ifs <;> omega

theorem forwardAsc_inverseAsc (kt : KEY_TYPE) {t : Nat} (ht : t < keySpace) :
    forwardAsc kt (inverseAsc kt t) = t := by
  cases kt <;>
    simp only [inverseAsc, forwardAsc, flipSignBit, forwardFloat, inverseFloat,
      signBit, keySpace] at * <;>
    split_ifs <;> omega

theorem inverseAsc_lt (kt : KEY_TYPE) {t : Nat} (ht : t < keySpace) :
    inverseAsc kt t < keySpace := by
  cases kt <;>
    simp only [inverseAsc, flipSignBit, inverseFloat, signBit, keySpace] at * <;>
    (try split_ifs) <;> omega

theorem invertBits_invertBits {k : Nat} (hk : k < keySpace) :
    invertBits (invertBits k) = k := by
  simp only [invertBits, keySpace] at *
  omega

theorem inverseKey_forwardKey (kt : KEY_TYPE) (o : ORDER) {k : Nat}
    (hk : k < keySpace) : inverseKey kt o (forwardKey kt o k) = k := by
  cases o
  · exact inverseAsc_forwardAsc kt hk
  · show inverseAsc kt (invertBits (invertBits (forwardAsc kt k))) = k
    rw [invertBits_invertBits (forwardAsc_lt kt hk)]
    exact inverseAsc_forwardAsc kt hk

theorem forwardKey_inverseKey (kt : KEY_TYPE) (o : ORDER) {t : Nat}
    (ht : t < keySpace) : forwardKey kt o (inverseKey kt o t) = t := by
  cases o
  · exact forwardAsc_inverseAsc kt ht
  · show invertBits (forwardAsc kt (inverseAsc kt (invertBits t))) = t
    rw [forwardAsc_inverseAsc kt (invertBits_lt ht)]
    exact invertBits_invertBits ht

theorem inverseKey_lt (kt : KEY_TYPE) (o : ORDER) {t : Nat}
    (ht : t < keySpace) : inverseKey kt o t < keySpace := by
  cases o
  · exact inverseAsc_lt kt ht
  · exact inverseAsc_lt kt (invertBits_lt ht)

theorem forwardKey_inj (kt : KEY_TYPE) (o : ORDER) {a b : Nat}
    (ha : a < keySpace) (hb : b < keySpace)
    (h : forwardKey kt o a = forwardKey kt o b) : a = b := by
  have h2 := congrArg (inverseKey kt o) h
  rwa [inverseKey_forwardKey kt o ha, inverseKey_forwardKey kt o hb] at h2

theorem keyTypeLe_iff_forwardAsc_le (kt : KEY_TYPE) {a b : Nat}
    (ha : a < keySpace) (hb : b < keySpace) :
    keyTypeLe kt a b ↔ forwardAsc kt a ≤ forwardAsc kt b := by
  cases kt <;>
    simp only [keyTypeLe, forwardAsc, flipSignBit, forwardFloat, toInt32,
      floatKeyLe, signBit, keySpace] at * <;>
    split_ifs <;> omega

theorem invertBits_le_iff {a b : Nat} (ha : a < keySpace) (hb : b < keySpace) :
    invertBits b ≤ invertBits a ↔ a ≤ b := by
  simp only [invertBits, keySpace] at *
  omega

theorem keyOrderLe_iff_forwardKey_le (kt : KEY_TYPE) (o : ORDER) {a b : Nat}
    (ha : a < keySpace) (hb : b < keySpace) :
    keyOrderLe kt o a b ↔ forwardKey kt o a ≤ forwardKey kt o b := by
  cases o
  · exact keyTypeLe_iff_forwardAsc_le kt ha hb
  · show keyTypeLe kt b a ↔ invertBits (forwardAsc kt a) ≤ invertBits (forwardAsc kt b)
    rw [invertBits_le_iff (forwardAsc_lt kt hb) (forwardAsc_lt kt ha)]
    exact keyTypeLe_iff_forwardAsc_le kt hb ha

/-! ## Sort semantics (spec sections 2, 4.3-4.5)

The digit-binning kernels live in `Shaders/OneSweep.hlsl`, outside `src/`,
so the whole-array effect of a pass is modelled from the spec: each key is
scattered to `globalDigitOffset[digit] + exclusivePrefix[digit] +
rankWithinTile` (spec section 4.5 step 5), which places the keys of digit
`d` after all keys of smaller digits, in their input order (the rank is a
stable ordered count and the tile order is the input slice order). The
output of a pass is therefore the concatenation, in increasing digit
order, of the equal-digit classes of the input, each in input order.
Payloads move in lockstep with their keys; elements are (key, payload)
pairs. -/

/-- Modelled from the spec (glossary): the 8-bit digit of a 32-bit key at a
given radix shift. -/
def digitAt (radixShift k : Nat) : Nat := k / 2 ^ radixShift % 256

/-- Modelled from the spec (section 4.5): the whole-array effect of one
stable digit-binning pass at a radix shift — the concatenation over digit
values 0..255 of the equal-digit classes of the input, each in input
order. -/
def binningPass (radixShift : Nat) (l : List (Nat × Nat)) : List (Nat × Nat) :=
  (List.range 256).flatMap fun d => l.filter fun kv => digitAt radixShift kv.1 == d

/-- Modelled from the spec (section 2): the four digit-binning passes at
radix shifts 0, 8, 16 and 24, applied to (transformed key, payload)
pairs. -/
def radixSortPasses (l : List (Nat × Nat)) : List (Nat × Nat) :=
  binningPass 24 (binningPass 16 (binningPass 8 (binningPass 0 l)))

/-- Modelled from the spec (sections 2-4): the full sort — the forward key
transform applied once at input, the four stable digit-binning passes on
the unsigned transformed keys, and the inverse transform applied once at
output; payloads ride along with their keys as pairs. -/
def fullSort (kt : KEY_TYPE) (o : ORDER) (l : List (Nat × Nat)) :
    List (Nat × Nat) :=
  (radixSortPasses (l.map fun kv => (forwardKey kt o kv.1, kv.2))).map
    fun kv => (inverseKey kt o kv.1, kv.2)

/-! ## Configuration validation (spec sections 6-7)

Validation happens in the `SweepBase` layer, outside `src/`, so it is
modelled from the spec: configuration errors (key count exceeding the
device buffer limit, unsupported key/payload type combination) are
reported synchronously at preparation time and the sort is never
dispatched. The spec does not enumerate which type combinations are
unsupported, so the supported-combination test is a parameter supplied by
the surrounding harness. Per spec sections 4.5 and 8 a key count of zero
is a valid, empty sort, so the count check rejects only counts exceeding
the device limit. -/

/-- Modelled from the spec (section 7): the configuration-error taxonomy
reported synchronously at preparation time. -/
inductive ConfigError
  | keyCountExceedsDeviceLimit
  | unsupportedTypeCombination
deriving DecidableEq

/-- Modelled from the spec (section 6): the configuration of one sort
call. -/
structure SortConfig where
  keyCount : Nat
  maxDeviceBufferKeys : Nat
  keyType : KEY_TYPE
  payloadType : Option PAYLOAD_TYPE
deriving DecidableEq

/-- Modelled from the spec (section 7): synchronous configuration
validation at preparation time. -/
def validateConfig (supported : KEY_TYPE → Option PAYLOAD_TYPE → Bool)
    (c : SortConfig) : Except ConfigError Unit :=
  if c.maxDeviceBufferKeys < c.keyCount then
    Except.error ConfigError.keyCountExceedsDeviceLimit
  else if supported c.keyType c.payloadType then Except.ok ()
  else Except.error ConfigError.unsupportedTypeCombination

/-- Modelled from the spec (sections 6-7): the prepare-sort entry point —
validate the configuration, then record the command sequence; on a
configuration error nothing is recorded and the error is returned
synchronously. -/
def prepareSort (supported : KEY_TYPE → Option PAYLOAD_TYPE → Bool)
    (c : SortConfig) (partitions globalHistPartitions : Nat) :
    Except ConfigError (List Cmd × SweepState) :=
  match validateConfig supported c with
  | Except.error e => Except.error e
  | Except.ok _ =>
    Except.ok (PrepareSortCmdList c.keyCount partitions globalHistPartitions)

end GPUSorting

namespace GPUSorting

/-! ## Permutation, sortedness and stability of the digit-binning passes -/

theorem sum_map_ite_eq (c m n : Nat) (h : m < n) :
    ((List.range n).map fun d => if m = d then c else 0).sum = c := by
  induction n with
  | zero => omega
  | succ n ih =>
    rw [List.range_succ, List.map_append, List.sum_append]
    rcases Nat.lt_or_ge m n with h' | h'
    · rw [ih h']
      have hn : (if m = n then c else 0) = 0 := if_neg (by omega)
      simp [hn]
    · have hmn : m = n := by omega
      subst hmn
      have hz : ((List.range m).map fun d => if m = d then c else 0).sum = 0 := by
        apply List.sum_eq_zero
        intro x hx
        rcases List.mem_map.mp hx with ⟨d, hd, hxd⟩
        have hdm : d < m := List.mem_range.mp hd
        rw [← hxd, if_neg (by omega)]
      rw [hz]
      simp

theorem flatMap_range_filter_perm {α : Type} [DecidableEq α] (n : Nat)
    (f : α → Nat) (l : List α) (h : ∀ x ∈ l, f x < n) :
    ((List.range n).flatMap fun d => l.filter fun x => f x == d).Perm l := by
  rw [List.perm_iff_count]
  intro a
  rw [List.count_flatMap]
  by_cases ha : a ∈ l
  · have hcount : ∀ d, List.count a (l.filter fun x => f x == d) =
        if f a = d then List.count a l else 0 := by
      intro d
      by_cases hd : f a = d
      · rw [if_pos hd]
        exact List.count_filter (by simp [hd])
      · rw [if_neg hd, List.count_eq_zero]
        intro hmem
        have h2 := (List.mem_filter.mp hmem).2
        simp only [beq_iff_eq] at h2
        exact hd h2
    have hmap : (List.range n).map
          (List.count a ∘ fun d => l.filter fun x => f x == d) =
        (List.range n).map fun d => if f a = d then List.count a l else 0 :=
      List.map_congr_left fun d _ => hcount d
    rw [hmap]
    exact sum_map_ite_eq _ _ _ (h a ha)
  · rw [List.count_eq_zero.mpr ha]
    apply List.sum_eq_zero
    intro x hx
    rcases List.mem_map.mp hx with ⟨d, _, hxd⟩
    rw [← hxd]
    simp only [Function.comp]
    rw [List.count_eq_zero]
    intro hmem
    exact ha (List.mem_filter.mp hmem).1

theorem digitAt_lt (s k : Nat) : digitAt s k < 256 :=
  Nat.mod_lt _ (by norm_num)

theorem binningPass_perm (s : Nat) (l : List (Nat × Nat)) :
    (binningPass s l).Perm l := by
  unfold binningPass
  exact flatMap_range_filter_perm 256 (fun kv : Nat × Nat => digitAt s kv.1) l
    fun x _ => digitAt_lt s x.1

theorem radixSortPasses_perm (l : List (Nat × Nat)) :
    (radixSortPasses l).Perm l :=
  ((((binningPass_perm 24 _).trans (binningPass_perm 16 _)).trans
    (binningPass_perm 8 _)).trans (binningPass_perm 0 l))

theorem pairwise_of_true {α : Type} {r : α → α → Prop} (h : ∀ a b, r a b)
    (l : List α) : l.Pairwise r := by
  induction l with
  | nil => exact List.Pairwise.nil
  | cons x xs ih => exact List.Pairwise.cons (fun y _ => h x y) ih

theorem pairwise_flatMap_range {α : Type} {r : α → α → Prop} (n : Nat)
    (g : Nat → List α) (hg : ∀ d, (g d).Pairwise r)
    (hlt : ∀ d1 d2, d1 < d2 → ∀ x ∈ g d1, ∀ y ∈ g d2, r x y) :
    ((List.range n).flatMap g).Pairwise r := by
  induction n with
  | zero => simp
  | succ n ih =>
    rw [List.range_succ, List.flatMap_append, List.pairwise_append]
    refine ⟨ih, by simpa using hg n, ?_⟩
    intro x hx y hy
    rcases List.mem_flatMap.mp hx with ⟨d, hd, hxd⟩
    have hdn : d < n := List.mem_range.mp hd
    have hy' : y ∈ g n := by simpa using hy
    exact hlt d n hdn x hxd y hy'

theorem mod_pow_add_eight (s a : Nat) :
    a % 2 ^ (s + 8) = 2 ^ s * digitAt s a + a % 2 ^ s := by
  have hpow : (2 : Nat) ^ (s + 8) = 2 ^ s * 256 := by
    rw [pow_add]
    norm_num
  rw [hpow]
  unfold digitAt
  conv_lhs => rw [← Nat.div_add_mod (a % (2 ^ s * 256)) (2 ^ s)]
  rw [Nat.mod_mul_right_div_self, Nat.mod_mod_of_dvd _ ⟨256, rfl⟩]

theorem mask_le_of_digit_lt {s : Nat} {a b : Nat}
    (h : digitAt s a < digitAt s b) : a % 2 ^ (s + 8) ≤ b % 2 ^ (s + 8) := by
  rw [mod_pow_add_eight, mod_pow_add_eight]
  have hpos : 0 < (2 : Nat) ^ s := Nat.pos_pow_of_pos s (by norm_num)
  have ha : a % 2 ^ s < 2 ^ s := Nat.mod_lt _ hpos
  have h1 : 2 ^ s * digitAt s a + a % 2 ^ s < 2 ^ s * (digitAt s a + 1) := by
    rw [Nat.mul_add, Nat.mul_one]
    omega
  have h2 : 2 ^ s * (digitAt s a + 1) ≤ 2 ^ s * digitAt s b :=
    Nat.mul_le_mul_left _ (by omega)
  omega

theorem mask_le_of_digit_eq {s : Nat} {a b : Nat}
    (hd : digitAt s a = digitAt s b) (h : a % 2 ^ s ≤ b % 2 ^ s) :
    a % 2 ^ (s + 8) ≤ b % 2 ^ (s + 8) := by
  rw [mod_pow_add_eight, mod_pow_add_eight, hd]
  exact Nat.add_le_add_left h _

theorem binningPass_pairwise (s : Nat) (l : List (Nat × Nat))
    (h : l.Pairwise fun a b => a.1 % 2 ^ s ≤ b.1 % 2 ^ s) :
    (binningPass s l).Pairwise
      fun a b => a.1 % 2 ^ (s + 8) ≤ b.1 % 2 ^ (s + 8) := by
  unfold binningPass
  apply pairwise_flatMap_range
  · intro d
    have hp := h.filter (fun kv => digitAt s kv.1 == d)
    refine List.Pairwise.imp_of_mem ?_ hp
    intro a b ha hb hab
    have hda : digitAt s a.1 = d := by
      have := (List.mem_filter.mp ha).2
      simpa using this
    have hdb : digitAt s b.1 = d := by
      have := (List.mem_filter.mp hb).2
      simpa using this
    exact mask_le_of_digit_eq (hda.trans hdb.symm) hab
  · intro d1 d2 hlt x hx y hy
    have hdx : digitAt s x.1 = d1 := by
      have := (List.mem_filter.mp hx).2
      simpa using this
    have hdy : digitAt s y.1 = d2 := by
      have := (List.mem_filter.mp hy).2
      simpa using this
    exact mask_le_of_digit_lt (by omega)

theorem radixSortPasses_sorted (l : List (Nat × Nat)) :
    (radixSortPasses l).Pairwise
      fun a b => a.1 % 2 ^ 32 ≤ b.1 % 2 ^ 32 := by
  unfold radixSortPasses
  have h0 : l.Pairwise fun a b => a.1 % 2 ^ 0 ≤ b.1 % 2 ^ 0 :=
    pairwise_of_true (fun a b => by simp [Nat.pow_zero, Nat.mod_one]) l
  have h1 := binningPass_pairwise 0 l h0
  have h2 := binningPass_pairwise 8 _ h1
  have h3 := binningPass_pairwise 16 _ h2
  have h4 := binningPass_pairwise 24 _ h3
  exact h4

theorem flatMap_range_ite_single {α : Type} (n m : Nat) (h : m < n)
    (L : List α) :
    ((List.range n).flatMap fun d => if m = d then L else []) = L := by
  induction n with
  | zero => omega
  | succ n ih =>
    rw [List.range_succ, List.flatMap_append]
    rcases Nat.lt_or_ge m n with h' | h'
    · rw [ih h']
      simp [if_neg (show m ≠ n by omega)]
    · have hmn : m = n := by omega
      subst hmn
      have hz : ((List.range m).flatMap fun d => if m = d then L else []) =
          [] := by
        rw [List.flatMap_eq_nil_iff]
        intro d hd
        exact if_neg (by have := List.mem_range.mp hd; omega)
      rw [hz]
      simp

theorem filter_binningPass (s k : Nat) (l : List (Nat × Nat)) :
    (binningPass s l).filter (fun kv => kv.1 == k) =
      l.filter (fun kv => kv.1 == k) := by
  unfold binningPass
  rw [List.filter_flatMap]
  have hb : ∀ d ∈ List.range 256,
      (l.filter fun kv => digitAt s kv.1 == d).filter (fun kv => kv.1 == k) =
        if digitAt s k = d then l.filter (fun kv => kv.1 == k) else [] := by
    intro d _
    rw [List.filter_comm]
    by_cases hd : digitAt s k = d
    · rw [if_pos hd]
      rw [List.filter_filter]
      apply List.filter_congr
      intro kv _
      by_cases hkv : kv.1 = k
      · simp [hkv, hd]
      · simp [hkv]
    · rw [if_neg hd, List.filter_eq_nil_iff]
      intro kv hkv
      have h1 := (List.mem_filter.mp hkv).2
      simp only [beq_iff_eq] at h1
      simp only [beq_iff_eq, Bool.not_eq_true]
      intro h2
      exact hd (by rw [← h1, h2])
  rw [List.flatMap_congr hb]
  exact flatMap_range_ite_single 256 (digitAt s k) (digitAt_lt s k) _

theorem filter_radixSortPasses (k : Nat) (l : List (Nat × Nat)) :
    (radixSortPasses l).filter (fun kv => kv.1 == k) =
      l.filter (fun kv => kv.1 == k) := by
  unfold radixSortPasses
  rw [filter_binningPass, filter_binningPass, filter_binningPass,
    filter_binningPass]

theorem map_inverse_forward (kt : KEY_TYPE) (o : ORDER)
    (l : List (Nat × Nat)) (hbound : ∀ kv ∈ l, kv.1 < keySpace) :
    (l.map fun kv => (forwardKey kt o kv.1, kv.2)).map
        (fun kv => (inverseKey kt o kv.1, kv.2)) = l := by
  rw [List.map_map]
  have h : ∀ kv ∈ l,
      ((fun kv : Nat × Nat => (inverseKey kt o kv.1, kv.2)) ∘
        fun kv : Nat × Nat => (forwardKey kt o kv.1, kv.2)) kv = id kv := by
    intro kv hkv
    simp [Function.comp, inverseKey_forwardKey kt o (hbound kv hkv)]
  rw [List.map_congr_left h, List.map_id]

theorem mem_radixSortPasses_map_forward (kt : KEY_TYPE) (o : ORDER)
    (l : List (Nat × Nat)) {kv : Nat × Nat}
    (hkv : kv ∈ radixSortPasses (l.map fun kv => (forwardKey kt o kv.1, kv.2))) :
    ∃ x ∈ l, kv = (forwardKey kt o x.1, x.2) := by
  have hmem := (radixSortPasses_perm _).mem_iff.mp hkv
  rcases List.mem_map.mp hmem with ⟨x, hx, hfx⟩
  exact ⟨x, hx, hfx.symm⟩

/-! ## Theorems for claims about the command sequence -/

/-- Claim C3: the prepared sort command sequence contains exactly four
digit-binning dispatches, one per 8-bit digit of the 32-bit key, issued in
strictly increasing radix-shift order 0, 8, 16, 24, with no other
digit-binning dispatches. -/
theorem digitBinning_dispatches_are_shifts_0_8_16_24
    (numKeys partitions globalHistPartitions : Nat) :
    (PrepareSortCmdList numKeys partitions globalHistPartitions).1.filterMap
        binShiftOf = [0, 8, 16, 24] ∧
      List.Chain' (· < ·)
        ((PrepareSortCmdList numKeys partitions globalHistPartitions).1.filterMap
          binShiftOf) := by
  refine ⟨rfl, ?_⟩
  have h : (PrepareSortCmdList numKeys partitions
      globalHistPartitions).1.filterMap binShiftOf = [0, 8, 16, 24] := rfl
  rw [h]
  simp [List.chain'_cons, List.chain'_singleton]

/-- Claim C4: after every one of the four digit-binning dispatches the two
key buffers and the two payload buffers swap roles, so each pass's
destination (alternate) buffer and destination payload buffer are the next
pass's source buffers; concretely the four dispatches use
(source, destination, payload source, payload destination) buffer tuples
(key0, key1, payload0, payload1), (key1, key0, payload1, payload0),
(key0, key1, payload0, payload1), (key1, key0, payload1, payload0). -/
theorem digitBinning_buffer_roles_swap_each_pass
    (numKeys partitions globalHistPartitions : Nat) :
    (PrepareSortCmdList numKeys partitions globalHistPartitions).1.filterMap
        binBuffers =
      [(Buf.key0, Buf.key1, Buf.payload0, Buf.payload1),
       (Buf.key1, Buf.key0, Buf.payload1, Buf.payload0),
       (Buf.key0, Buf.key1, Buf.payload0, Buf.payload1),
       (Buf.key1, Buf.key0, Buf.payload1, Buf.payload0)] ∧
      List.Chain'
        (fun a b => a.2.1 = b.1 ∧ a.2.2.2 = b.2.2.1)
        ((PrepareSortCmdList numKeys partitions globalHistPartitions).1.filterMap
          binBuffers) := by
  refine ⟨rfl, ?_⟩
  have h : (PrepareSortCmdList numKeys partitions
        globalHistPartitions).1.filterMap binBuffers =
      [(Buf.key0, Buf.key1, Buf.payload0, Buf.payload1),
       (Buf.key1, Buf.key0, Buf.payload1, Buf.payload0),
       (Buf.key0, Buf.key1, Buf.payload0, Buf.payload1),
       (Buf.key1, Buf.key0, Buf.payload1, Buf.payload0)] := rfl
  rw [h]
  simp [List.chain'_cons, List.chain'_singleton]

/-- Claim C9: `PrepareSortCmdList` performs exactly four buffer-role swaps
(one per digit-binning pass, an even number), so the buffer-role state after
the call equals the state before it, and the fourth (final) digit-binning
pass scatters into the buffer objects originally held by `m_sortBuffer` and
`m_sortPayloadBuffer`. -/
theorem prepareSortCmdList_restores_buffer_roles
    (numKeys partitions globalHistPartitions : Nat) :
    (PrepareSortCmdList numKeys partitions globalHistPartitions).2 =
        initialState ∧
      ((PrepareSortCmdList numKeys partitions globalHistPartitions).1.filterMap
          binBuffers).length = 4 ∧
      (((PrepareSortCmdList numKeys partitions
            globalHistPartitions).1.filterMap binBuffers).getLast?.map
          (fun t => (t.2.1, t.2.2.2))) =
        some (initialState.sortBuffer, initialState.sortPayloadBuffer) :=
  ⟨rfl, rfl, rfl⟩

/-- Claim C10: both OneSweep constructors configure the identical fixed
radix parameters — 4 radix passes, 256 radix digits, and a digit-binning
partition size of `1 <<< 13 = 8192` keys — independent of the device
capability descriptor, and the two constructors differ only in the presence
of the payload type. -/
theorem oneSweep_ctors_fixed_radix_parameters
    (dev dev' : DeviceInfo) (o : ORDER) (kt : KEY_TYPE) (pt : PAYLOAD_TYPE) :
    (OneSweepCtorKeysOnly dev o kt).radixPasses = 4 ∧
      (OneSweepCtorKeysOnly dev o kt).radixDigits = 256 ∧
      (OneSweepCtorKeysOnly dev o kt).partitionSize = 8192 ∧
      (OneSweepCtorPairs dev o kt pt).radixPasses = 4 ∧
      (OneSweepCtorPairs dev o kt pt).radixDigits = 256 ∧
      (OneSweepCtorPairs dev o kt pt).partitionSize = 8192 ∧
      (OneSweepCtorKeysOnly dev o kt).partitionSize =
        (OneSweepCtorKeysOnly dev' o kt).partitionSize ∧
      OneSweepCtorPairs dev o kt pt =
        { OneSweepCtorKeysOnly dev o kt with payloadType := some pt } :=
  ⟨rfl, rfl, rfl, rfl, rfl, rfl, rfl, rfl⟩

/-- Claim C5, counterexample: in the command sequence prepared for 8192
keys and one partition, some write-then-read dependency between dispatches
is covered by no intervening barrier (the Reset dispatch zeroes the
tile-index counters, each digit-binning dispatch reads its pass's counter,
and no barrier on the tile-index buffer is ever recorded), so it is not the
case that a barrier is inserted between every pair of dependent dispatches
covering every buffer written by the earlier one and read by the later
one. -/
theorem exists_dependent_dispatch_pair_without_barrier :
    uncoveredDeps (PrepareSortCmdList 8192 1 1).1 ≠ [] := by
  decide

theorem cmdWrites_scrubNat (c : Cmd) : cmdWrites (scrubNat c) = cmdWrites c := by
  cases c <;> rfl

theorem cmdReads_scrubNat (c : Cmd) : cmdReads (scrubNat c) = cmdReads c := by
  cases c <;> rfl

theorem barrierCovers_scrubNat (c : Cmd) (r : Buf × Nat) :
    barrierCovers (scrubNat c) r = barrierCovers c r := by
  cases c <;> rfl

theorem hasBarrierBetween_scrubNat (cmds : List Cmd) (i j : Nat)
    (r : Buf × Nat) :
    hasBarrierBetween (cmds.map scrubNat) i j r =
      hasBarrierBetween cmds i j r := by
  unfold hasBarrierBetween
  rw [← List.map_drop, ← List.map_take, List.any_map]
  congr 1
  funext c
  exact barrierCovers_scrubNat c r

theorem uncoveredDeps_scrubNat (cmds : List Cmd) :
    uncoveredDeps (cmds.map scrubNat) = uncoveredDeps cmds := by
  unfold uncoveredDeps
  rw [List.length_map]
  apply List.flatMap_congr
  intro i _
  apply List.flatMap_congr
  intro j _
  by_cases h : i < j
  · simp only [if_pos h, List.getElem?_map]
    rcases cmds[i]? with _ | ci <;> rcases cmds[j]? with _ | cj <;>
      simp [cmdWrites_scrubNat, cmdReads_scrubNat, hasBarrierBetween_scrubNat]
  · simp only [if_neg h]

/-- Claim C5, amended: the stages Reset, Global Histogram, Exclusive Scan
and the four digit-binning passes are recorded in strict sequence, and a
barrier standing strictly between the two dispatches covers every buffer
region written by an earlier dispatch and read by a later one, except for
the tile-index counter buffer: its four dependencies (Reset, which zeroes
the per-pass tile-index counters at position 0, against the digit-binning
dispatches at positions 6, 11, 16 and 21, which read them) are covered by
no barrier. -/
theorem barriers_cover_all_deps_except_tile_index
    (numKeys partitions globalHistPartitions : Nat) :
    (PrepareSortCmdList numKeys partitions globalHistPartitions).1.filterMap
        stageOf =
      [Stage.reset, Stage.globalHistogram, Stage.exclusiveScan,
       Stage.digitBinning 0, Stage.digitBinning 8, Stage.digitBinning 16,
       Stage.digitBinning 24] ∧
      uncoveredDeps
          (PrepareSortCmdList numKeys partitions globalHistPartitions).1 =
        [(0, 6, Buf.index, 0), (0, 11, Buf.index, 1), (0, 16, Buf.index, 2),
         (0, 21, Buf.index, 3)] := by
  refine ⟨rfl, ?_⟩
  have hmap : (PrepareSortCmdList numKeys partitions
      globalHistPartitions).1.map scrubNat = scrubbedPreparedCmds := rfl
  rw [← uncoveredDeps_scrubNat, hmap]
  decide

theorem binningPass_nil (s : Nat) : binningPass s [] = [] := by
  unfold binningPass
  rw [List.flatMap_eq_nil_iff]
  intro d _
  rfl

theorem fullSort_nil (kt : KEY_TYPE) (o : ORDER) : fullSort kt o [] = [] := by
  unfold fullSort radixSortPasses
  rw [List.map_nil, binningPass_nil, binningPass_nil, binningPass_nil,
    binningPass_nil, List.map_nil]

theorem prepareSort_ok (supported : KEY_TYPE → Option PAYLOAD_TYPE → Bool)
    (c : SortConfig) (partitions globalHistPartitions : Nat)
    (h1 : ¬c.maxDeviceBufferKeys < c.keyCount)
    (h2 : supported c.keyType c.payloadType = true) :
    prepareSort supported c partitions globalHistPartitions =
      Except.ok (PrepareSortCmdList c.keyCount partitions
        globalHistPartitions) := by
  unfold prepareSort validateConfig
  rw [if_neg h1, if_pos h2]

/-- Claim C1: for every input key sequence (including empty, single-element,
all-equal, already-sorted and reverse-sorted inputs) whose keys are 32-bit
patterns, the output of the full sort is a permutation of the input sorted
according to the requested order and key-type interpretation, and the
key-to-slot mapping of every individual digit-binning pass is a bijection
over the index domain (the pass output is a permutation of the pass
input). -/
theorem fullSort_perm_sorted_each_pass_bijective (kt : KEY_TYPE) (o : ORDER)
    (l : List (Nat × Nat)) (hbound : ∀ kv ∈ l, kv.1 < keySpace) :
    (fullSort kt o l).Perm l ∧
      (fullSort kt o l).Pairwise (fun a b => keyOrderLe kt o a.1 b.1) ∧
      ∀ (s : Nat) (l' : List (Nat × Nat)), (binningPass s l').Perm l' := by
  refine ⟨?_, ?_, fun s l' => binningPass_perm s l'⟩
  · show ((radixSortPasses (l.map fun kv => (forwardKey kt o kv.1, kv.2))).map
        (fun kv => (inverseKey kt o kv.1, kv.2))).Perm l
    have h1 := (radixSortPasses_perm
        (l.map fun kv => (forwardKey kt o kv.1, kv.2))).map
      (fun kv : Nat × Nat => (inverseKey kt o kv.1, kv.2))
    rwa [map_inverse_forward kt o l hbound] at h1
  · show ((radixSortPasses (l.map fun kv => (forwardKey kt o kv.1, kv.2))).map
        (fun kv => (inverseKey kt o kv.1, kv.2))).Pairwise
      (fun a b => keyOrderLe kt o a.1 b.1)
    rw [List.pairwise_map]
    refine List.Pairwise.imp_of_mem ?_ (radixSortPasses_sorted _)
    intro a b ha hb hle
    rcases mem_radixSortPasses_map_forward kt o l ha with ⟨x, hx, hax⟩
    rcases mem_radixSortPasses_map_forward kt o l hb with ⟨y, hy, hby⟩
    subst hax
    subst hby
    show keyOrderLe kt o (inverseKey kt o (forwardKey kt o x.1))
      (inverseKey kt o (forwardKey kt o y.1))
    rw [inverseKey_forwardKey kt o (hbound x hx),
      inverseKey_forwardKey kt o (hbound y hy)]
    rw [keyOrderLe_iff_forwardKey_le kt o (hbound x hx) (hbound y hy)]
    have hfx := forwardKey_lt kt o (hbound x hx)
    have hfy := forwardKey_lt kt o (hbound y hy)
    have h32 : keySpace = 2 ^ 32 := by norm_num [keySpace]
    rw [h32] at hfx hfy
    have hle2 : (forwardKey kt o x.1, x.2).1 % 2 ^ 32 ≤
        (forwardKey kt o y.1, y.2).1 % 2 ^ 32 := hle
    rwa [Nat.mod_eq_of_lt hfx, Nat.mod_eq_of_lt hfy] at hle2

/-- Claim C1, witness: the theorem applied to the concrete input
`[(5,0), (3,1), (3,2), (1,3)]`, sorted unsigned ascending. -/
theorem fullSort_perm_sorted_each_pass_bijective_witness :
    (∀ kv ∈ [((5 : Nat), (0 : Nat)), (3, 1), (3, 2), (1, 3)],
        kv.1 < keySpace) ∧
      ((fullSort KEY_TYPE.uint32 ORDER.ascending
          [(5, 0), (3, 1), (3, 2), (1, 3)]).Perm
          [(5, 0), (3, 1), (3, 2), (1, 3)] ∧
        (fullSort KEY_TYPE.uint32 ORDER.ascending
            [(5, 0), (3, 1), (3, 2), (1, 3)]).Pairwise
          (fun a b => keyOrderLe KEY_TYPE.uint32 ORDER.ascending a.1 b.1) ∧
        ∀ (s : Nat) (l' : List (Nat × Nat)), (binningPass s l').Perm l') :=
  ⟨by decide,
   fullSort_perm_sorted_each_pass_bijective KEY_TYPE.uint32 ORDER.ascending
     [(5, 0), (3, 1), (3, 2), (1, 3)] (by decide)⟩

/-- Claim C2: the sort is stable and payloads move in lockstep with keys —
for every key value, the sublist of (key, payload) pairs carrying that key
is unchanged by the sort (same pairs, same relative order), and the
concrete scenario holds: keys `[5, 3, 3, 1]` with payloads `[A, B, C, D]`
(encoded `A = 0, B = 1, C = 2, D = 3`), sorted unsigned ascending, yield
keys `[1, 3, 3, 5]` with payloads `[D, B, C, A]`. -/
theorem fullSort_stable_payload_lockstep :
    (∀ (kt : KEY_TYPE) (o : ORDER) (l : List (Nat × Nat)),
        (∀ kv ∈ l, kv.1 < keySpace) → ∀ k, k < keySpace →
          (fullSort kt o l).filter (fun kv => kv.1 == k) =
            l.filter (fun kv => kv.1 == k)) ∧
      fullSort KEY_TYPE.uint32 ORDER.ascending
          [(5, 0), (3, 1), (3, 2), (1, 3)] =
        [(1, 3), (3, 1), (3, 2), (5, 0)] := by
  constructor
  · intro kt o l hbound k hk
    show ((radixSortPasses (l.map fun kv => (forwardKey kt o kv.1, kv.2))).map
        (fun kv => (inverseKey kt o kv.1, kv.2))).filter
        (fun kv => kv.1 == k) = _
    rw [List.filter_map]
    have hc1 : ∀ kv ∈ radixSortPasses
        (l.map fun kv => (forwardKey kt o kv.1, kv.2)),
        ((fun kv : Nat × Nat => kv.1 == k) ∘
          fun kv : Nat × Nat => (inverseKey kt o kv.1, kv.2)) kv =
          (kv.1 == forwardKey kt o k) := by
      intro kv hkv
      rcases mem_radixSortPasses_map_forward kt o l hkv with ⟨x, hx, hkvx⟩
      subst hkvx
      show (inverseKey kt o (forwardKey kt o x.1) == k) =
        (forwardKey kt o x.1 == forwardKey kt o k)
      rw [inverseKey_forwardKey kt o (hbound x hx)]
      by_cases hxk : x.1 = k
      · simp [hxk]
      · have hne : forwardKey kt o x.1 ≠ forwardKey kt o k := fun hEq =>
          hxk (forwardKey_inj kt o (hbound x hx) hk hEq)
        simp [hxk, hne]
    rw [List.filter_congr hc1, filter_radixSortPasses, List.filter_map]
    have hc2 : ∀ kv ∈ l,
        ((fun kv : Nat × Nat => kv.1 == forwardKey kt o k) ∘
          fun kv : Nat × Nat => (forwardKey kt o kv.1, kv.2)) kv =
          (kv.1 == k) := by
      intro kv hkv
      show (forwardKey kt o kv.1 == forwardKey kt o k) = (kv.1 == k)
      by_cases hxk : kv.1 = k
      · simp [hxk]
      · have hne : forwardKey kt o kv.1 ≠ forwardKey kt o k := fun hEq =>
          hxk (forwardKey_inj kt o (hbound kv hkv) hk hEq)
        simp [hxk, hne]
    rw [List.filter_congr hc2]
    exact map_inverse_forward kt o _
      fun kv hkv => hbound kv (List.mem_filter.mp hkv).1
  · decide

/-- Claim C2, witness: the stability statement applied at the concrete
input `[(5,0), (3,1), (3,2), (1,3)]` and key value 3. -/
theorem fullSort_stable_payload_lockstep_witness :
    ((∀ kv ∈ [((5 : Nat), (0 : Nat)), (3, 1), (3, 2), (1, 3)],
          kv.1 < keySpace) ∧ 3 < keySpace) ∧
      (fullSort KEY_TYPE.uint32 ORDER.ascending
          [(5, 0), (3, 1), (3, 2), (1, 3)]).filter
          (fun kv => kv.1 == 3) =
        [((5 : Nat), (0 : Nat)), (3, 1), (3, 2), (1, 3)].filter
          (fun kv => kv.1 == 3) :=
  ⟨⟨by decide, by decide⟩,
   fullSort_stable_payload_lockstep.1 KEY_TYPE.uint32 ORDER.ascending
     [(5, 0), (3, 1), (3, 2), (1, 3)] (by decide) 3 (by decide)⟩

/-- Claim C6: for every representable 32-bit key pattern — including the
bit patterns of plus and minus zero, NaN patterns, and minimum/maximum
values — the forward order-preserving key transform stays inside the
32-bit domain and composing it with its inverse recovers the original bit
pattern exactly, in both directions, for every key type and order; the
transform is therefore an exact bijection of the 32-bit pattern domain. -/
theorem key_transform_exact_bijection (kt : KEY_TYPE) (o : ORDER) :
    (∀ k, k < keySpace →
        forwardKey kt o k < keySpace ∧
          inverseKey kt o (forwardKey kt o k) = k) ∧
      ∀ t, t < keySpace →
        inverseKey kt o t < keySpace ∧
          forwardKey kt o (inverseKey kt o t) = t :=
  ⟨fun _ hk => ⟨forwardKey_lt kt o hk, inverseKey_forwardKey kt o hk⟩,
   fun _ ht => ⟨inverseKey_lt kt o ht, forwardKey_inverseKey kt o ht⟩⟩

/-- Claim C6, witness: the round trip applied to the quiet-NaN bit pattern
`0x7FC00000 = 2143289344` under the float key type with descending
order. -/
theorem key_transform_exact_bijection_witness :
    2143289344 < keySpace ∧
      (forwardKey KEY_TYPE.float32 ORDER.descending 2143289344 < keySpace ∧
        inverseKey KEY_TYPE.float32 ORDER.descending
            (forwardKey KEY_TYPE.float32 ORDER.descending 2143289344) =
          2143289344) :=
  ⟨by decide,
   (key_transform_exact_bijection KEY_TYPE.float32 ORDER.descending).1
     2143289344 (by decide)⟩

/-- Claim C7, counterexample: a configuration with key count zero is not
rejected — preparation succeeds and the command sequence still contains
all seven kernel dispatches, contradicting the claim that a zero key count
is reported as an error with no sort dispatch emitted. -/
theorem zero_key_count_accepted_and_dispatched :
    prepareSort (fun _ _ => true)
        { keyCount := 0, maxDeviceBufferKeys := 1073741824,
          keyType := KEY_TYPE.uint32, payloadType := none } 4 4 =
      Except.ok (PrepareSortCmdList 0 4 4) ∧
      ((PrepareSortCmdList 0 4 4).1.filterMap stageOf).length = 7 :=
  ⟨rfl, rfl⟩

/-- Claim C7, amended: for every configuration whose key count exceeds the
device buffer limit or whose key/payload type combination is unsupported,
the error is reported synchronously at sort-preparation time and no sort
dispatch is emitted (the preparation returns the error and no command
sequence); a key count of zero is not a configuration error. -/
theorem invalid_config_reported_no_dispatch
    (supported : KEY_TYPE → Option PAYLOAD_TYPE → Bool) (c : SortConfig)
    (partitions globalHistPartitions : Nat)
    (h : c.maxDeviceBufferKeys < c.keyCount ∨
      supported c.keyType c.payloadType = false) :
    ∃ e, prepareSort supported c partitions globalHistPartitions =
      Except.error e := by
  have hv : (validateConfig supported c =
        Except.error ConfigError.keyCountExceedsDeviceLimit) ∨
      validateConfig supported c =
        Except.error ConfigError.unsupportedTypeCombination := by
    unfold validateConfig
    rcases h with h | h
    · left
      rw [if_pos h]
    · by_cases h2 : c.maxDeviceBufferKeys < c.keyCount
      · left
        rw [if_pos h2]
      · right
        rw [if_neg h2]
        simp [h]
  unfold prepareSort
  rcases hv with hv | hv <;> rw [hv] <;> exact ⟨_, rfl⟩

/-- Claim C7 (amended), witness: the theorem applied to a configuration
with key count 2 exceeding a device limit of 1. -/
theorem invalid_config_reported_no_dispatch_witness :
    (((1 : Nat) < 2 ∨ (fun (_ : KEY_TYPE) (_ : Option PAYLOAD_TYPE) => true)
          KEY_TYPE.uint32 none = false)) ∧
      ∃ e, prepareSort (fun _ _ => true)
          { keyCount := 2, maxDeviceBufferKeys := 1,
            keyType := KEY_TYPE.uint32, payloadType := none } 1 1 =
        Except.error e :=
  ⟨Or.inl (by decide),
   invalid_config_reported_no_dispatch (fun _ _ => true)
     { keyCount := 2, maxDeviceBufferKeys := 1, keyType := KEY_TYPE.uint32,
       payloadType := none } 1 1 (Or.inl (by decide))⟩

/-- Claim C8: a sort invoked with key count zero completes successfully and
yields an empty output (the identity permutation over an empty index
domain) rather than failing — the full sort of the empty sequence is the
empty sequence, and preparation of a zero-key sort succeeds (for any
supported type combination) and records the command sequence. -/
theorem zero_key_count_empty_successful_sort (kt : KEY_TYPE) (o : ORDER)
    (supported : KEY_TYPE → Option PAYLOAD_TYPE → Bool)
    (m partitions globalHistPartitions : Nat) (ktype : KEY_TYPE)
    (pt : Option PAYLOAD_TYPE) (h : supported ktype pt = true) :
    fullSort kt o [] = [] ∧
      prepareSort supported
          { keyCount := 0, maxDeviceBufferKeys := m, keyType := ktype,
            payloadType := pt } partitions globalHistPartitions =
        Except.ok (PrepareSortCmdList 0 partitions globalHistPartitions) := by
  constructor
  · exact fullSort_nil kt o
  · exact prepareSort_ok supported _ partitions globalHistPartitions
      (show ¬m < 0 by omega) h

/-- Claim C8, witness: the theorem applied with the everything-supported
combination test and concrete scalars. -/
theorem zero_key_count_empty_successful_sort_witness :
    ((fun (_ : KEY_TYPE) (_ : Option PAYLOAD_TYPE) => true)
          KEY_TYPE.float32 none = true) ∧
      (fullSort KEY_TYPE.int32 ORDER.descending [] = [] ∧
        prepareSort (fun _ _ => true)
            { keyCount := 0, maxDeviceBufferKeys := 8,
              keyType := KEY_TYPE.float32, payloadType := none } 2 3 =
          Except.ok (PrepareSortCmdList 0 2 3)) :=
  ⟨rfl,
   zero_key_count_empty_successful_sort KEY_TYPE.int32 ORDER.descending
     (fun _ _ => true) 8 2 3 KEY_TYPE.float32 none rfl⟩

end GPUSorting
